import Mathlib

/-!
Verification of the OMR engine (backend/omr_core) against its natural-language
specification.  The Python source is shallowly embedded: pure fragments become
Lean functions over `String`, `ℕ`, `ℤ` and `ℚ` (Python floats only ever hold
exact integer/half-integer arithmetic on these code paths, so `ℚ` is faithful);
dict iteration becomes iteration over association lists.
-/

namespace OMR

/-! ### Evaluation engine: `omr_core/evaluation.py` -/

/-- One marking scheme (`marking_schemes[...]`): point values for
correct/incorrect/unmarked, `float(...)`-parsed in the source. -/
structure MarkingScheme where
  correct : ℚ
  incorrect : ℚ
  unmarked : ℚ
deriving Repr, DecidableEq

/-- The answer key `AnswerKeyManager.answer_key`, a dict question → answer. -/
abbrev AnswerKey := List (String × String)

/-- `AnswerKeyManager.get_answer`: `self.answer_key.get(question, "")`. -/
def getAnswer (key : AnswerKey) (question : String) : String :=
  match key.lookup question with
  | some a => a
  | none => ""

/-- `EvaluationResult` dataclass from `evaluation.py`. -/
structure EvaluationResult where
  question : String
  student_answer : String
  correct_answer : String
  verdict : String
  score : ℚ
deriving Repr, DecidableEq

/-- The verdict/score branch of the loop body of
`OMREvaluator.evaluate_omr_response` (lines 150-181): equality with the
correct answer, then empty, then `len > 1`, else incorrect.  (The
`student_answer is None` disjunct of the empty test cannot arise for string
responses and is dropped.) -/
def evalQuestion (scheme : MarkingScheme) (key : AnswerKey)
    (question student_answer : String) : EvaluationResult :=
  let correct_answer := getAnswer key question
  if student_answer = correct_answer then
    ⟨question, student_answer, correct_answer, "correct", scheme.correct⟩
  else if student_answer = "" then
    ⟨question, student_answer, correct_answer, "unmarked", scheme.unmarked⟩
  else if 1 < student_answer.length then
    ⟨question, student_answer, correct_answer, "multi_marked", 0⟩
  else
    ⟨question, student_answer, correct_answer, "incorrect", scheme.incorrect⟩

/-- The running accumulators of `evaluate_omr_response`. -/
structure EvalAccum where
  results : List EvaluationResult
  total_score : ℚ
  correct_answers : ℕ
  incorrect_answers : ℕ
  unmarked_answers : ℕ
  multi_marked_answers : ℕ
deriving Repr, DecidableEq

/-- One iteration of the `for question, student_answer in omr_response.items()`
loop: the per-branch counter increment is recovered from the verdict string
(verdict strings are pairwise distinct, so this matches the source's if-chain). -/
def evalStep (scheme : MarkingScheme) (key : AnswerKey)
    (acc : EvalAccum) (qa : String × String) : EvalAccum :=
  let r := evalQuestion scheme key qa.1 qa.2
  { results := acc.results ++ [r]
    total_score := acc.total_score + r.score
    correct_answers := acc.correct_answers + (if r.verdict = "correct" then 1 else 0)
    incorrect_answers := acc.incorrect_answers + (if r.verdict = "incorrect" then 1 else 0)
    unmarked_answers := acc.unmarked_answers + (if r.verdict = "unmarked" then 1 else 0)
    multi_marked_answers := acc.multi_marked_answers + (if r.verdict = "multi_marked" then 1 else 0) }

/-- `ScoringReport` dataclass. -/
structure ScoringReport where
  total_score : ℚ
  max_possible_score : ℚ
  percentage : ℚ
  correct_answers : ℕ
  incorrect_answers : ℕ
  unmarked_answers : ℕ
  multi_marked_answers : ℕ
  evaluation_results : List EvaluationResult
  subject_scores : List (String × ℚ)
deriving Repr, DecidableEq

/-- `OMREvaluator.calculate_subject_scores`: returns `{"Total": sum of scores}`
(the source comments that it is simplified and does not map questions to
subjects). -/
def calculate_subject_scores (results : List EvaluationResult) : List (String × ℚ) :=
  [("Total", (results.map (·.score)).sum)]

/-- `OMREvaluator.evaluate_omr_response` (success path; the `except` arm is
unreachable for the embedded total functions). -/
def evaluate_omr_response (scheme : MarkingScheme) (key : AnswerKey)
    (omr_response : List (String × String)) : ScoringReport :=
  let acc := omr_response.foldl (evalStep scheme key) ⟨[], 0, 0, 0, 0, 0⟩
  let max_possible_score : ℚ := (omr_response.length : ℚ) * scheme.correct
  let percentage : ℚ :=
    if 0 < max_possible_score then acc.total_score / max_possible_score * 100 else 0
  { total_score := acc.total_score
    max_possible_score := max_possible_score
    percentage := percentage
    correct_answers := acc.correct_answers
    incorrect_answers := acc.incorrect_answers
    unmarked_answers := acc.unmarked_answers
    multi_marked_answers := acc.multi_marked_answers
    evaluation_results := acc.results
    subject_scores := calculate_subject_scores acc.results }

/-- The per-subject structure handed to the service layer
(`test_subjects`: entries `{name, questions}`). -/
structure TestSubject where
  name : String
  questions : ℕ
deriving Repr, DecidableEq

/-- The per-subject score of one slice in
`OMRProcessor._convert_to_subject_scores` (`services/omr_processor.py`):
`for j in range(current, current + nq): if j <= len(results) and
results[j-1].verdict == "correct": score += 1`. -/
def subjectSliceScore (results : List EvaluationResult) (current nq : ℕ) : ℕ :=
  (List.range nq).countP (fun i =>
    decide (current + i ≤ results.length) &&
      ((results.getD (current + i - 1) ⟨"", "", "", "", 0⟩).verdict == "correct"))

/-- The subject-slicing loop of `OMRProcessor._convert_to_subject_scores`:
walks the caller-supplied subjects, starting at question number `current`
(1 in the source), producing one named score per subject. -/
def convertSubjectScores (results : List EvaluationResult) :
    List TestSubject → ℕ → List (String × ℕ)
  | [], _ => []
  | s :: rest, current =>
    (s.name, subjectSliceScore results current s.questions) ::
      convertSubjectScores results rest (current + s.questions)

/-- Total question count over a subject list. -/
def totalQuestions (subjects : List TestSubject) : ℕ :=
  (subjects.map (·.questions)).sum

/-- Modelled from the spec: "Per-subject scores are computed by slicing the
ordered question list according to caller-supplied subject boundaries (a list
of {name, question count}) and summing the 1-point-per-correct count within
each slice."  Used only to compare the source's slicing loop against the
spec's wording. -/
def specSubjectSlices : List TestSubject → List EvaluationResult → List (String × ℕ)
  | [], _ => []
  | s :: rest, rs =>
    (s.name, (rs.take s.questions).countP (fun r => r.verdict == "correct")) ::
      specSubjectSlices rest (rs.drop s.questions)

/-! #### Helper lemmas for the evaluation engine -/

/-- The evaluation fold appends exactly the mapped per-question results. -/
theorem evalFold_results (scheme : MarkingScheme) (key : AnswerKey)
    (resp : List (String × String)) (acc : EvalAccum) :
    (resp.foldl (evalStep scheme key) acc).results =
      acc.results ++ resp.map (fun qa => evalQuestion scheme key qa.1 qa.2) := by
  induction resp generalizing acc with
  | nil => simp
  | cons hd tl ih =>
    rw [List.foldl_cons, ih]
    simp [evalStep]

/-- The evaluation fold accumulates the per-question scores. -/
theorem evalFold_total (scheme : MarkingScheme) (key : AnswerKey)
    (resp : List (String × String)) (acc : EvalAccum) :
    (resp.foldl (evalStep scheme key) acc).total_score =
      acc.total_score +
        ((resp.map (fun qa => (evalQuestion scheme key qa.1 qa.2).score)).sum) := by
  induction resp generalizing acc with
  | nil => simp
  | cons hd tl ih =>
    rw [List.foldl_cons, ih]
    simp [evalStep, add_assoc]

/-- The evaluation fold counts verdicts: stated for an arbitrary verdict
string, covering all four counters at once via `countForVerdict`. -/
def countForVerdict (acc : EvalAccum) (v : String) : ℕ :=
  if v = "correct" then acc.correct_answers
  else if v = "incorrect" then acc.incorrect_answers
  else if v = "unmarked" then acc.unmarked_answers
  else acc.multi_marked_answers

theorem evalFold_counts (scheme : MarkingScheme) (key : AnswerKey)
    (resp : List (String × String)) (acc : EvalAccum) (v : String)
    (hv : v = "correct" ∨ v = "incorrect" ∨ v = "unmarked" ∨ v = "multi_marked") :
    countForVerdict (resp.foldl (evalStep scheme key) acc) v =
      countForVerdict acc v +
        (resp.map (fun qa => evalQuestion scheme key qa.1 qa.2)).countP
          (·.verdict == v) := by
  induction resp generalizing acc with
  | nil => simp
  | cons hd tl ih =>
    rw [List.foldl_cons, ih]
    by_cases h : (evalQuestion scheme key hd.1 hd.2).verdict = v <;>
      rcases hv with hv | hv | hv | hv <;> subst hv <;>
      simp [evalStep, countForVerdict, List.countP_cons, h] <;> omega

/-- Every produced verdict is one of the four verdict strings. -/
theorem evalQuestion_verdict_cases (scheme : MarkingScheme) (key : AnswerKey)
    (q a : String) :
    (evalQuestion scheme key q a).verdict = "correct" ∨
    (evalQuestion scheme key q a).verdict = "incorrect" ∨
    (evalQuestion scheme key q a).verdict = "unmarked" ∨
    (evalQuestion scheme key q a).verdict = "multi_marked" := by
  simp only [evalQuestion]
  by_cases h1 : a = getAnswer key q
  · simp [h1]
  · rw [if_neg h1]
    by_cases h2 : a = ""
    · rw [if_pos h2]
      simp
    · rw [if_neg h2]
      by_cases h3 : 1 < a.length
      · rw [if_pos h3]
        simp
      · rw [if_neg h3]
        simp

/-- For a result list whose verdicts all fall in the four classes, the four
verdict counts sum to the list length. -/
theorem verdictCounts_sum (rs : List EvaluationResult)
    (h : ∀ r ∈ rs, r.verdict = "correct" ∨ r.verdict = "incorrect" ∨
      r.verdict = "unmarked" ∨ r.verdict = "multi_marked") :
    rs.countP (·.verdict == "correct") + rs.countP (·.verdict == "incorrect") +
      rs.countP (·.verdict == "unmarked") + rs.countP (·.verdict == "multi_marked") =
      rs.length := by
  induction rs with
  | nil => simp
  | cons hd tl ih =>
    have hhd := h hd (List.mem_cons_self hd tl)
    have htl := ih (fun r hr => h r (List.mem_cons_of_mem hd hr))
    simp only [List.countP_cons, List.length_cons]
    rcases hhd with h1 | h1 | h1 | h1 <;>
      simp [h1] <;> omega

/-- The evaluation results are exactly the per-question map. -/
theorem evaluate_results_eq_map (scheme : MarkingScheme) (key : AnswerKey)
    (resp : List (String × String)) :
    (evaluate_omr_response scheme key resp).evaluation_results =
      resp.map (fun qa => evalQuestion scheme key qa.1 qa.2) := by
  show (resp.foldl (evalStep scheme key) ⟨[], 0, 0, 0, 0, 0⟩).results = _
  rw [evalFold_results]
  simp

/-! #### Claim C2 -/

/-- Claim C2 (confirmed): for every question the verdict follows exactly the
source's precedence: response = correct value → `correct` with the scheme's
correct points; else empty response → `unmarked` with the unmarked points;
else length > 1 → `multi_marked` with score exactly 0 regardless of scheme;
else `incorrect` with the incorrect points. -/
theorem c2_verdict_precedence (scheme : MarkingScheme) (key : AnswerKey)
    (q a : String) :
    (a = getAnswer key q →
      (evalQuestion scheme key q a).verdict = "correct" ∧
      (evalQuestion scheme key q a).score = scheme.correct) ∧
    (a ≠ getAnswer key q → a = "" →
      (evalQuestion scheme key q a).verdict = "unmarked" ∧
      (evalQuestion scheme key q a).score = scheme.unmarked) ∧
    (a ≠ getAnswer key q → a ≠ "" → 1 < a.length →
      (evalQuestion scheme key q a).verdict = "multi_marked" ∧
      (evalQuestion scheme key q a).score = 0) ∧
    (a ≠ getAnswer key q → a ≠ "" → ¬ 1 < a.length →
      (evalQuestion scheme key q a).verdict = "incorrect" ∧
      (evalQuestion scheme key q a).score = scheme.incorrect) := by
  refine ⟨fun h1 => ?_, fun h1 h2 => ?_, fun h1 h2 h3 => ?_, fun h1 h2 h3 => ?_⟩
  · simp [evalQuestion, h1]
  · simp only [evalQuestion]
    rw [if_neg h1, if_pos h2]
    exact ⟨rfl, rfl⟩
  · simp only [evalQuestion]
    rw [if_neg h1, if_neg h2, if_pos h3]
    exact ⟨rfl, rfl⟩
  · simp only [evalQuestion]
    rw [if_neg h1, if_neg h2, if_neg h3]
    exact ⟨rfl, rfl⟩

/-- Concrete witness for C2: all four branches fire on explicit inputs
(answer key `{q1 ↦ A}`, default scheme `1/0/0`). -/
theorem c2_verdict_precedence_witness :
    ((evalQuestion ⟨1, 0, 0⟩ [("q1", "A")] "q1" "A").verdict = "correct" ∧
      (evalQuestion ⟨1, 0, 0⟩ [("q1", "A")] "q1" "A").score = 1) ∧
    ((evalQuestion ⟨1, 0, 0⟩ [("q1", "A")] "q1" "").verdict = "unmarked") ∧
    ((evalQuestion ⟨1, 0, 0⟩ [("q1", "A")] "q1" "BC").verdict = "multi_marked") ∧
    ((evalQuestion ⟨1, 0, 0⟩ [("q1", "A")] "q1" "B").verdict = "incorrect") := by
  refine ⟨?_, ?_, ?_, ?_⟩
  · exact (c2_verdict_precedence ⟨1, 0, 0⟩ [("q1", "A")] "q1" "A").1 (by decide)
  · exact ((c2_verdict_precedence ⟨1, 0, 0⟩ [("q1", "A")] "q1" "").2.1 (by decide) rfl).1
  · exact ((c2_verdict_precedence ⟨1, 0, 0⟩ [("q1", "A")] "q1" "BC").2.2.1
      (by decide) (by decide) (by decide)).1
  · exact ((c2_verdict_precedence ⟨1, 0, 0⟩ [("q1", "A")] "q1" "B").2.2.2
      (by decide) (by decide) (by decide)).1

/-- The identity fields of a per-question evaluation result. -/
theorem evalQuestion_fields (scheme : MarkingScheme) (key : AnswerKey) (q a : String) :
    (evalQuestion scheme key q a).question = q ∧
    (evalQuestion scheme key q a).student_answer = a ∧
    (evalQuestion scheme key q a).correct_answer = getAnswer key q := by
  simp only [evalQuestion]
  split_ifs <;> exact ⟨rfl, rfl, rfl⟩

/-- Per-question behaviour when the question is absent from the answer key
(the correct value defaults to `""`). -/
theorem evalQuestion_missing_key (scheme : MarkingScheme) (key : AnswerKey)
    (q a : String) (hq : getAnswer key q = "") :
    (evalQuestion scheme key q a).correct_answer = "" ∧
    (a = "" → (evalQuestion scheme key q a).verdict = "correct") ∧
    (a ≠ "" →
      (evalQuestion scheme key q a).verdict ≠ "correct" ∧
      (evalQuestion scheme key q a).verdict ≠ "unmarked" ∧
      ((evalQuestion scheme key q a).verdict = "incorrect" ∨
        (evalQuestion scheme key q a).verdict = "multi_marked")) := by
  simp only [evalQuestion, hq]
  by_cases h2 : a = ""
  · simp [h2]
  · by_cases h3 : 1 < a.length <;> simp [h2, h3]

/-! #### Claim C1 -/

/-- Claim C1 counterexample: with an empty answer key, the question `q1` with
the empty response is scored `correct` (the defaulted empty correct value
equals the empty response, and the equality branch fires first), so a question
absent from the answer key CAN be assigned verdict `correct`. -/
theorem c1_counterexample :
    getAnswer [] "q1" = "" ∧
    (evaluate_omr_response ⟨1, 0, 0⟩ [] [("q1", "")]).correct_answers = 1 ∧
    ((evaluate_omr_response ⟨1, 0, 0⟩ [] [("q1", "")]).evaluation_results.map
      (·.verdict)) = ["correct"] := by
  refine ⟨rfl, by decide, by decide⟩

/-- Claim C1 (amended): for a question absent from the answer key the correct
value defaults to the empty string; a *non-empty* response is then never
scored `correct` (and never `unmarked`): it is `incorrect` or `multi_marked`.
An *empty* response, however, equals the defaulted correct value and is scored
`correct`. -/
theorem c1_amended (scheme : MarkingScheme) (key : AnswerKey)
    (resp : List (String × String)) (r : EvaluationResult)
    (hr : r ∈ (evaluate_omr_response scheme key resp).evaluation_results)
    (hq : getAnswer key r.question = "") :
    r.correct_answer = "" ∧
    (r.student_answer = "" → r.verdict = "correct") ∧
    (r.student_answer ≠ "" →
      r.verdict ≠ "correct" ∧ r.verdict ≠ "unmarked" ∧
      (r.verdict = "incorrect" ∨ r.verdict = "multi_marked")) := by
  rw [evaluate_results_eq_map] at hr
  rcases List.mem_map.mp hr with ⟨qa, _, hqa⟩
  subst hqa
  obtain ⟨hqp, hsp, _⟩ := evalQuestion_fields scheme key qa.1 qa.2
  rw [hqp] at hq
  rw [hsp]
  exact evalQuestion_missing_key scheme key qa.1 qa.2 hq

/-- Concrete witness for C1 amended: empty key, response `B` for `q1` is
scored `incorrect`, never `correct`. -/
theorem c1_amended_witness :
    (⟨"q1", "B", "", "incorrect", 0⟩ : EvaluationResult) ∈
      (evaluate_omr_response ⟨1, 0, 0⟩ [] [("q1", "B")]).evaluation_results ∧
    ((⟨"q1", "B", "", "incorrect", 0⟩ : EvaluationResult).verdict ≠ "correct" ∧
      (⟨"q1", "B", "", "incorrect", 0⟩ : EvaluationResult).verdict ≠ "unmarked" ∧
      ((⟨"q1", "B", "", "incorrect", 0⟩ : EvaluationResult).verdict = "incorrect" ∨
        (⟨"q1", "B", "", "incorrect", 0⟩ : EvaluationResult).verdict = "multi_marked")) := by
  refine ⟨by decide, ?_⟩
  exact (c1_amended ⟨1, 0, 0⟩ [] [("q1", "B")] ⟨"q1", "B", "", "incorrect", 0⟩
    (by decide) (by decide)).2.2 (by decide)

/-! #### Claim C9 -/

/-- Claim C9 (confirmed): every scoring report is internally consistent: the
four verdict counts sum to the number of questions, there is exactly one
evaluation result per question, the total score is the sum of the per-result
scores, and the maximum possible score is the question count times the
scheme's correct points. -/
theorem c9_report_consistency (scheme : MarkingScheme) (key : AnswerKey)
    (resp : List (String × String)) :
    (evaluate_omr_response scheme key resp).correct_answers +
        (evaluate_omr_response scheme key resp).incorrect_answers +
        (evaluate_omr_response scheme key resp).unmarked_answers +
        (evaluate_omr_response scheme key resp).multi_marked_answers = resp.length ∧
    (evaluate_omr_response scheme key resp).evaluation_results.length = resp.length ∧
    (evaluate_omr_response scheme key resp).total_score =
      (((evaluate_omr_response scheme key resp).evaluation_results.map (·.score)).sum) ∧
    (evaluate_omr_response scheme key resp).max_possible_score =
      (resp.length : ℚ) * scheme.correct := by
  have hres := evaluate_results_eq_map scheme key resp
  have hmem : ∀ r ∈ resp.map (fun qa => evalQuestion scheme key qa.1 qa.2),
      r.verdict = "correct" ∨ r.verdict = "incorrect" ∨
        r.verdict = "unmarked" ∨ r.verdict = "multi_marked" := by
    intro r hr
    rcases List.mem_map.mp hr with ⟨qa, _, hqa⟩
    subst hqa
    exact evalQuestion_verdict_cases scheme key qa.1 qa.2
  refine ⟨?_, ?_, ?_, rfl⟩
  · have hc := evalFold_counts scheme key resp ⟨[], 0, 0, 0, 0, 0⟩ "correct" (by simp)
    have hi := evalFold_counts scheme key resp ⟨[], 0, 0, 0, 0, 0⟩ "incorrect" (by simp)
    have hu := evalFold_counts scheme key resp ⟨[], 0, 0, 0, 0, 0⟩ "unmarked" (by simp)
    have hm := evalFold_counts scheme key resp ⟨[], 0, 0, 0, 0, 0⟩ "multi_marked" (by simp)
    simp only [countForVerdict] at hc hi hu hm
    simp only [if_pos, if_neg, String.reduceEq, ite_true, ite_false] at hc hi hu hm
    have hsum := verdictCounts_sum
      (resp.map (fun qa => evalQuestion scheme key qa.1 qa.2)) hmem
    show (resp.foldl (evalStep scheme key) ⟨[], 0, 0, 0, 0, 0⟩).correct_answers +
      (resp.foldl (evalStep scheme key) ⟨[], 0, 0, 0, 0, 0⟩).incorrect_answers +
      (resp.foldl (evalStep scheme key) ⟨[], 0, 0, 0, 0, 0⟩).unmarked_answers +
      (resp.foldl (evalStep scheme key) ⟨[], 0, 0, 0, 0, 0⟩).multi_marked_answers = _
    rw [hc, hi, hu, hm]
    simp only [List.length_map] at hsum ⊢
    omega
  · rw [hres]
    simp
  · rw [hres]
    show (resp.foldl (evalStep scheme key) ⟨[], 0, 0, 0, 0, 0⟩).total_score = _
    rw [evalFold_total]
    simp [List.map_map]
    rfl

/-! #### Claim C3 -/

/-- Claim C3 counterexample: the ScoringReport's `subject_scores` is NOT one
entry per caller-supplied subject: for a two-question evaluation (so any
two-subject split would demand two entries) it is the single entry
`("Total", total score)`. -/
theorem c3_counterexample :
    (evaluate_omr_response ⟨1, 0, 0⟩ [("q1", "A"), ("q2", "B")]
        [("q1", "A"), ("q2", "B")]).subject_scores = [("Total", 2)] ∧
    (evaluate_omr_response ⟨1, 0, 0⟩ [("q1", "A"), ("q2", "B")]
        [("q1", "A"), ("q2", "B")]).subject_scores.length = 1 := by
  constructor
  · show calculate_subject_scores
      (([("q1", "A"), ("q2", "B")] : List (String × String)).foldl
        (evalStep ⟨1, 0, 0⟩ [("q1", "A"), ("q2", "B")]) ⟨[], 0, 0, 0, 0, 0⟩).results = _
    rw [evalFold_results]
    have h1 : getAnswer [("q1", "A"), ("q2", "B")] "q1" = "A" := rfl
    have h2 : getAnswer [("q1", "A"), ("q2", "B")] "q2" = "B" := rfl
    simp only [List.nil_append, List.map_cons, List.map_nil]
    norm_num [calculate_subject_scores, evalQuestion, h1, h2]
  · rfl

/-- A slice of the result list, described by drop/take, enumerated by index. -/
theorem take_drop_eq_range_map (rs : List EvaluationResult) (d nq : ℕ)
    (h : d + nq ≤ rs.length) :
    (rs.drop d).take nq =
      (List.range nq).map (fun i => rs.getD (d + i) ⟨"", "", "", "", 0⟩) := by
  induction nq with
  | zero => simp
  | succ n ih =>
    rw [List.range_succ, List.map_append, List.take_succ, ih (by omega)]
    have hb : d + n < rs.length := by omega
    rw [List.getElem?_drop, List.getElem?_eq_getElem (by omega : d + n < rs.length)]
    simp [List.getD_eq_getElem rs _ hb, List.getElem?_eq_getElem hb]

/-- The source's absolute-index slice count agrees with the drop/take slice
count whenever the slice fits inside the result list. -/
theorem subjectSliceScore_eq_slice (rs : List EvaluationResult) (d nq : ℕ)
    (h : d + nq ≤ rs.length) :
    subjectSliceScore rs (d + 1) nq =
      ((rs.drop d).take nq).countP (fun r => r.verdict == "correct") := by
  unfold subjectSliceScore
  rw [take_drop_eq_range_map rs d nq h, List.countP_map]
  apply List.countP_congr
  intro i hi
  have hilt : i < nq := List.mem_range.mp hi
  have hguard : d + 1 + i ≤ rs.length := by omega
  simp only [Function.comp]
  constructor
  · intro hb
    have := (Bool.and_eq_true _ _).mp hb
    have h2 := this.2
    have heq : d + 1 + i - 1 = d + i := by omega
    rwa [heq] at h2
  · intro hb
    refine (Bool.and_eq_true _ _).mpr ⟨by simpa using hguard, ?_⟩
    have heq : d + 1 + i - 1 = d + i := by omega
    rwa [heq]

/-- The service layer's subject loop refines the spec's slice description. -/
theorem convertSubjectScores_eq_spec (subjects : List TestSubject) :
    ∀ (rs : List EvaluationResult) (d : ℕ),
      d + totalQuestions subjects ≤ rs.length →
      convertSubjectScores rs subjects (d + 1) = specSubjectSlices subjects (rs.drop d) := by
  induction subjects with
  | nil => intro rs d _; rfl
  | cons s rest ih =>
    intro rs d h
    have hq : d + s.questions ≤ rs.length := by
      have : totalQuestions (s :: rest) = s.questions + totalQuestions rest := by
        simp [totalQuestions]
      omega
    show (s.name, subjectSliceScore rs (d + 1) s.questions) :: _ = _
    unfold specSubjectSlices
    rw [subjectSliceScore_eq_slice rs d s.questions hq]
    have hnext : convertSubjectScores rs rest (d + 1 + s.questions) =
        specSubjectSlices rest ((rs.drop d).drop s.questions) := by
      rw [List.drop_drop]
      have harr : d + 1 + s.questions = d + s.questions + 1 := by omega
      rw [harr]
      apply ih
      have : totalQuestions (s :: rest) = s.questions + totalQuestions rest := by
        simp [totalQuestions]
      omega
    rw [hnext]

/-- The subject loop yields one entry per supplied subject. -/
theorem convertSubjectScores_length (rs : List EvaluationResult)
    (subjects : List TestSubject) :
    ∀ current, (convertSubjectScores rs subjects current).length = subjects.length := by
  induction subjects with
  | nil => intro current; rfl
  | cons s rest ih =>
    intro current
    show (convertSubjectScores rs rest (current + s.questions)).length + 1 = _
    rw [ih]
    rfl

/-- Claim C3 (amended): the ScoringReport's `subject_scores` is always the
single entry `("Total", total score)`; the per-subject slicing — one entry per
caller-supplied subject, scoring one point per `correct` verdict inside the
subject's slice of the ordered question list — is performed downstream, by the
service layer's `_convert_to_subject_scores`, whose slicing loop agrees with
the spec's slice-and-count description whenever the subjects' question counts
fit in the result list. -/
theorem c3_amended (scheme : MarkingScheme) (key : AnswerKey)
    (resp : List (String × String)) (results : List EvaluationResult)
    (subjects : List TestSubject)
    (hQ : totalQuestions subjects ≤ results.length) :
    (evaluate_omr_response scheme key resp).subject_scores =
      [("Total", (evaluate_omr_response scheme key resp).total_score)] ∧
    convertSubjectScores results subjects 1 = specSubjectSlices subjects results ∧
    (convertSubjectScores results subjects 1).length = subjects.length := by
  refine ⟨?_, ?_, convertSubjectScores_length results subjects 1⟩
  · show calculate_subject_scores
      ((resp.foldl (evalStep scheme key) ⟨[], 0, 0, 0, 0, 0⟩).results) =
      [("Total", (resp.foldl (evalStep scheme key) ⟨[], 0, 0, 0, 0, 0⟩).total_score)]
    rw [evalFold_results, evalFold_total]
    simp [calculate_subject_scores, List.map_map]
    rfl
  · have h := convertSubjectScores_eq_spec subjects results 0 (by simpa using hQ)
    simpa using h

/-- Concrete witness for C3 amended: two subjects of one question each over a
two-result list; the slicing loop produces one entry per subject. -/
theorem c3_amended_witness :
    totalQuestions [⟨"Math", 1⟩, ⟨"Sci", 1⟩] ≤
      ([⟨"q1", "A", "A", "correct", 1⟩, ⟨"q2", "B", "C", "incorrect", 0⟩] :
        List EvaluationResult).length ∧
    convertSubjectScores
        [⟨"q1", "A", "A", "correct", 1⟩, ⟨"q2", "B", "C", "incorrect", 0⟩]
        [⟨"Math", 1⟩, ⟨"Sci", 1⟩] 1 =
      specSubjectSlices [⟨"Math", 1⟩, ⟨"Sci", 1⟩]
        [⟨"q1", "A", "A", "correct", 1⟩, ⟨"q2", "B", "C", "incorrect", 0⟩] := by
  refine ⟨by decide, ?_⟩
  exact (c3_amended ⟨1, 0, 0⟩ [] []
    [⟨"q1", "A", "A", "correct", 1⟩, ⟨"q2", "B", "C", "incorrect", 0⟩]
    [⟨"Math", 1⟩, ⟨"Sci", 1⟩] (by decide)).2.1

/-! ### Template model: `omr_core/template.py` -/

/-- `Bubble` dataclass: coordinates are Python floats, always produced by
exact integer arithmetic here, so `ℚ` is faithful. -/
structure Bubble where
  x : ℚ
  y : ℚ
  field_label : String
  field_type : String
  field_value : String
deriving Repr, DecidableEq

/-- `FieldBlock` dataclass (configuration part; the generated
`traverse_bubbles` grid is `generate_bubble_grid` below). -/
structure FieldBlock where
  name : String
  field_type : String
  origin : ℤ × ℤ
  bubble_dimensions : List ℤ
  bubbles_gap : ℤ
  labels_gap : ℤ
  field_labels : List String
  empty_value : String
  shift : ℤ
deriving Repr, DecidableEq

/-- The `field_types` table of `FieldBlock.generate_bubble_grid`:
domain values and whether the layout direction is vertical. -/
def fieldTypeValues : String → Option (List String × Bool)
  | "QTYPE_INT" => some (["0", "1", "2", "3", "4", "5", "6", "7", "8", "9"], true)
  | "QTYPE_MCQ4" => some (["A", "B", "C", "D"], false)
  | "QTYPE_MCQ5" => some (["A", "B", "C", "D", "E"], false)
  | _ => none

/-- Inner loop of `generate_bubble_grid`: walk the domain values from
`bubble_point`, advancing coordinate `_h` (y when vertical, x when
horizontal) by `bubbles_gap` after each bubble. -/
def placeBubbles (ft lab : String) (vert : Bool) (gap : ℚ) :
    List String → ℚ × ℚ → List Bubble
  | [], _ => []
  | v :: vs, p =>
    ⟨p.1, p.2, lab, ft, v⟩ ::
      placeBubbles ft lab vert gap vs
        (if vert then (p.1, p.2 + gap) else (p.1 + gap, p.2))

/-- Outer loop of `generate_bubble_grid`: one row of bubbles per field label,
advancing coordinate `_v` (x when vertical, y when horizontal) of the lead
point by `labels_gap` after each label. -/
def placeLabels (ft : String) (vert : Bool) (values : List String)
    (bgap lgap : ℚ) : List String → ℚ × ℚ → List (List Bubble)
  | [], _ => []
  | lab :: rest, lead =>
    placeBubbles ft lab vert bgap values lead ::
      placeLabels ft vert values bgap lgap rest
        (if vert then (lead.1 + lgap, lead.2) else (lead.1, lead.2 + lgap))

/-- `FieldBlock.generate_bubble_grid`: `none` models the `ValueError` raised
for an unsupported field type. -/
def generate_bubble_grid (fb : FieldBlock) : Option (List (List Bubble)) :=
  match fieldTypeValues fb.field_type with
  | none => none
  | some (values, vert) =>
    some (placeLabels fb.field_type vert values
      (fb.bubbles_gap : ℚ) (fb.labels_gap : ℚ) fb.field_labels
      ((fb.origin.1 : ℚ), (fb.origin.2 : ℚ)))

/-- `Template`: the configuration fields read by `validate_template`. -/
structure Template where
  page_dimensions : List ℤ
  bubble_dimensions : List ℤ
  empty_value : String
  field_blocks : List FieldBlock
deriving Repr, DecidableEq

/-- A block's `traverse_bubbles` as populated by `__post_init__` (blocks with
unsupported field types never reach validation: their construction raises). -/
def traverseBubbles (fb : FieldBlock) : List (List Bubble) :=
  (generate_bubble_grid fb).getD []

/-- `Template.validate_template`: emptiness/length checks only — the source
never inspects the dimension values themselves. -/
def validate_template (t : Template) : Bool :=
  if t.page_dimensions.isEmpty || t.page_dimensions.length ≠ 2 then false
  else if t.bubble_dimensions.isEmpty || t.bubble_dimensions.length ≠ 2 then false
  else if t.field_blocks.isEmpty then false
  else t.field_blocks.all fun fb =>
    !(traverseBubbles fb).isEmpty &&
      (traverseBubbles fb).all fun row => !row.isEmpty

/-! #### Claim C4 -/

/-- A template whose page dimensions are `[0, 0]` but which otherwise has a
well-formed single MCQ4 block. -/
def zeroDimTemplate : Template :=
  { page_dimensions := [0, 0]
    bubble_dimensions := [20, 20]
    empty_value := ""
    field_blocks :=
      [⟨"Questions", "QTYPE_MCQ4", (50, 100), [20, 20], 50, 60, ["q1"], "", 0⟩] }

/-- Claim C4 counterexample: validation accepts a template whose page
dimensions contain zeros — the claim's "two positive integers" requirement is
not checked by the code, which only tests that each dimension list has
length 2. -/
theorem c4_counterexample :
    validate_template zeroDimTemplate = true ∧
    zeroDimTemplate.page_dimensions = [0, 0] := by
  constructor
  · rfl
  · rfl

/-- Claim C4 (amended): validation returns true iff the page-dimension and
bubble-dimension lists each have length exactly 2 (their values, positive or
not, are never inspected), there is at least one FieldBlock, and every
FieldBlock's generated bubble grid is non-empty with every row non-empty. -/
theorem c4_amended (t : Template) :
    validate_template t = true ↔
      (t.page_dimensions.length = 2 ∧ t.bubble_dimensions.length = 2 ∧
        t.field_blocks ≠ [] ∧
        ∀ fb ∈ t.field_blocks, traverseBubbles fb ≠ [] ∧
          ∀ row ∈ traverseBubbles fb, row ≠ []) := by
  unfold validate_template
  by_cases h1 : t.page_dimensions.isEmpty || t.page_dimensions.length ≠ 2
  · simp only [if_pos h1]
    constructor
    · intro h; exact absurd h (by simp)
    · intro h
      rcases h with ⟨hp, _, _, _⟩
      rw [Bool.or_eq_true] at h1
      rcases h1 with h1 | h1
      · rw [List.isEmpty_iff] at h1
        rw [h1] at hp
        simp at hp
      · simp [hp] at h1
  · simp only [if_neg h1]
    rw [Bool.or_eq_true, not_or] at h1
    obtain ⟨-, h1len⟩ := h1
    have hp2 : t.page_dimensions.length = 2 := by
      by_contra hc
      exact h1len (by simpa using hc)
    by_cases h2 : t.bubble_dimensions.isEmpty || t.bubble_dimensions.length ≠ 2
    · simp only [if_pos h2]
      constructor
      · intro h; exact absurd h (by simp)
      · intro h
        rcases h with ⟨_, hb, _, _⟩
        rw [Bool.or_eq_true] at h2
        rcases h2 with h2 | h2
        · rw [List.isEmpty_iff] at h2
          rw [h2] at hb
          simp at hb
        · simp [hb] at h2
    · simp only [if_neg h2]
      rw [Bool.or_eq_true, not_or] at h2
      obtain ⟨-, h2len⟩ := h2
      have hb2 : t.bubble_dimensions.length = 2 := by
        by_contra hc
        exact h2len (by simpa using hc)
      by_cases h3 : t.field_blocks.isEmpty
      · simp only [if_pos h3]
        rw [List.isEmpty_iff] at h3
        constructor
        · intro h; exact absurd h (by simp)
        · intro h
          exact absurd h3 h.2.2.1
      · simp only [if_neg h3]
        rw [List.isEmpty_iff] at h3
        constructor
        · intro h
          refine ⟨hp2, hb2, h3, ?_⟩
          intro fb hfb
          have := List.all_eq_true.mp h fb hfb
          rw [Bool.and_eq_true] at this
          refine ⟨?_, ?_⟩
          · intro hc
            rw [← List.isEmpty_iff] at hc
            simp [hc] at this
          · intro row hrow
            have h2 := List.all_eq_true.mp this.2 row hrow
            intro hc
            subst hc
            simp at h2
        · intro ⟨_, _, _, h4⟩
          apply List.all_eq_true.mpr
          intro fb hfb
          obtain ⟨hne, hrows⟩ := h4 fb hfb
          rw [Bool.and_eq_true]
          constructor
          · simp [List.isEmpty_iff, hne]
          · apply List.all_eq_true.mpr
            intro row hrow
            simp [List.isEmpty_iff, hrows row hrow]

/-! #### Claim C5 -/

/-- The coordinate along the block's layout axis (y for vertical blocks,
x for horizontal ones). -/
def axisCoord (vert : Bool) (b : Bubble) : ℚ :=
  if vert then b.y else b.x

/-- The layout-axis component of a point. -/
def axisOf (vert : Bool) (p : ℚ × ℚ) : ℚ :=
  if vert then p.2 else p.1

theorem placeBubbles_length (ft lab : String) (vert : Bool) (gap : ℚ) :
    ∀ (vs : List String) (p : ℚ × ℚ),
      (placeBubbles ft lab vert gap vs p).length = vs.length := by
  intro vs
  induction vs with
  | nil => intro p; rfl
  | cons v vs ih =>
    intro p
    show (placeBubbles ft lab vert gap vs _).length + 1 = _
    rw [ih]
    rfl

/-- The i-th bubble of one question sits `i · gap` further along the layout
axis than the question's lead point. -/
theorem placeBubbles_axis (ft lab : String) (vert : Bool) (gap : ℚ) :
    ∀ (vs : List String) (p : ℚ × ℚ) (i : ℕ), i < vs.length →
      axisCoord vert
          ((placeBubbles ft lab vert gap vs p).getD i ⟨0, 0, "", "", ""⟩) =
        axisOf vert p + i * gap := by
  intro vs
  induction vs with
  | nil => intro p i h; simp at h
  | cons v vs ih =>
    intro p i h
    match i with
    | 0 =>
      show axisCoord vert ⟨p.1, p.2, lab, ft, v⟩ = axisOf vert p + 0 * gap
      cases vert <;> simp [axisCoord, axisOf]
    | Nat.succ j =>
      show axisCoord vert ((placeBubbles ft lab vert gap vs _).getD j _) = _
      rw [ih _ j (by simpa using h)]
      cases vert <;>
        · simp [axisOf]
          push_cast
          ring

theorem placeLabels_length (ft : String) (vert : Bool) (values : List String)
    (bgap lgap : ℚ) :
    ∀ (labels : List String) (lead : ℚ × ℚ),
      (placeLabels ft vert values bgap lgap labels lead).length = labels.length := by
  intro labels
  induction labels with
  | nil => intro lead; rfl
  | cons lab rest ih =>
    intro lead
    show (placeLabels ft vert values bgap lgap rest _).length + 1 = _
    rw [ih]
    rfl

/-- Every row of the generated grid is a `placeBubbles` run over the full
domain-value list. -/
theorem placeLabels_mem (ft : String) (vert : Bool) (values : List String)
    (bgap lgap : ℚ) :
    ∀ (labels : List String) (lead : ℚ × ℚ) (row : List Bubble),
      row ∈ placeLabels ft vert values bgap lgap labels lead →
      ∃ lab p, row = placeBubbles ft lab vert bgap values p := by
  intro labels
  induction labels with
  | nil => intro lead row h; simp [placeLabels] at h
  | cons lab rest ih =>
    intro lead row h
    rcases List.mem_cons.mp h with h | h
    · exact ⟨lab, lead, h⟩
    · exact ih _ row h

/-- Claim C5 counterexample: with `bubblesGap = 0` (a representable block
configuration the code accepts) successive bubbles of one question coincide —
their coordinates do not strictly increase along the layout axis. -/
theorem c5_counterexample :
    (generate_bubble_grid ⟨"B", "QTYPE_MCQ4", (0, 0), [20, 20], 0, 10, ["q1"], "", 0⟩).isSome = true ∧
    (((generate_bubble_grid
        ⟨"B", "QTYPE_MCQ4", (0, 0), [20, 20], 0, 10, ["q1"], "", 0⟩).getD []).getD 0 []).length = 4 ∧
    ((((generate_bubble_grid
        ⟨"B", "QTYPE_MCQ4", (0, 0), [20, 20], 0, 10, ["q1"], "", 0⟩).getD []).getD 0 []).getD 0
          ⟨0, 0, "", "", ""⟩).x =
      ((((generate_bubble_grid
        ⟨"B", "QTYPE_MCQ4", (0, 0), [20, 20], 0, 10, ["q1"], "", 0⟩).getD []).getD 0 []).getD 1
          ⟨0, 0, "", "", ""⟩).x ∧
    ((((generate_bubble_grid
        ⟨"B", "QTYPE_MCQ4", (0, 0), [20, 20], 0, 10, ["q1"], "", 0⟩).getD []).getD 0 []).getD 0
          ⟨0, 0, "", "", ""⟩).y =
      ((((generate_bubble_grid
        ⟨"B", "QTYPE_MCQ4", (0, 0), [20, 20], 0, 10, ["q1"], "", 0⟩).getD []).getD 0 []).getD 1
          ⟨0, 0, "", "", ""⟩).y := by
  refine ⟨rfl, rfl, ?_, rfl⟩
  show (0 : ℚ) = 0 + 0
  norm_num

/-- Claim C5 (amended): for every FieldBlock with a supported field type, grid
generation is a pure function of origin, gaps and labels, always succeeds,
and the generated bubble count equals `len(fieldLabels) × domainSize` — for
any `bubblesGap` whatsoever; only the strict increase of the bubble
coordinates along the block's layout axis additionally requires the block's
`bubblesGap` to be positive (with gap 0 successive bubbles coincide). -/
theorem c5_amended (fb : FieldBlock) (values : List String) (vert : Bool)
    (hft : fieldTypeValues fb.field_type = some (values, vert)) :
    ∃ grid, generate_bubble_grid fb = some grid ∧
      grid.length = fb.field_labels.length ∧
      (∀ row ∈ grid, row.length = values.length) ∧
      grid.join.length = fb.field_labels.length * values.length ∧
      (0 < fb.bubbles_gap →
        ∀ row ∈ grid, ∀ i : ℕ, i + 1 < row.length →
          axisCoord vert (row.getD i ⟨0, 0, "", "", ""⟩) <
            axisCoord vert (row.getD (i + 1) ⟨0, 0, "", "", ""⟩)) := by
  refine ⟨placeLabels fb.field_type vert values (fb.bubbles_gap : ℚ)
      (fb.labels_gap : ℚ) fb.field_labels ((fb.origin.1 : ℚ), (fb.origin.2 : ℚ)),
    ?_, placeLabels_length _ _ _ _ _ _ _, ?_, ?_, ?_⟩
  · unfold generate_bubble_grid
    rw [hft]
  · intro row hrow
    obtain ⟨lab, p, hr⟩ := placeLabels_mem _ _ _ _ _ _ _ row hrow
    rw [hr, placeBubbles_length]
  · have hall : ∀ row ∈ placeLabels fb.field_type vert values (fb.bubbles_gap : ℚ)
        (fb.labels_gap : ℚ) fb.field_labels ((fb.origin.1 : ℚ), (fb.origin.2 : ℚ)),
        row.length = values.length := by
      intro row hrow
      obtain ⟨lab, p, hr⟩ := placeLabels_mem _ _ _ _ _ _ _ row hrow
      rw [hr, placeBubbles_length]
    rw [List.length_join]
    have hmap : (placeLabels fb.field_type vert values (fb.bubbles_gap : ℚ)
        (fb.labels_gap : ℚ) fb.field_labels ((fb.origin.1 : ℚ), (fb.origin.2 : ℚ))).map
          List.length =
        List.replicate ((placeLabels fb.field_type vert values (fb.bubbles_gap : ℚ)
          (fb.labels_gap : ℚ) fb.field_labels
          ((fb.origin.1 : ℚ), (fb.origin.2 : ℚ))).map List.length).length
          values.length := by
      apply List.eq_replicate_of_mem
      intro n hn
      rcases List.mem_map.mp hn with ⟨row, hrow, hlen⟩
      rw [← hlen]
      exact hall row hrow
    rw [hmap, List.sum_replicate, smul_eq_mul, List.length_map, placeLabels_length]
  · intro hgap row hrow i hi
    obtain ⟨lab, p, hr⟩ := placeLabels_mem _ _ _ _ _ _ _ row hrow
    subst hr
    rw [placeBubbles_length] at hi
    rw [placeBubbles_axis _ _ _ _ _ _ i (by omega),
      placeBubbles_axis _ _ _ _ _ _ (i + 1) (by omega)]
    have hgq : (0 : ℚ) < (fb.bubbles_gap : ℚ) := by exact_mod_cast hgap
    have : (i : ℚ) * (fb.bubbles_gap : ℚ) < ((i : ℚ) + 1) * (fb.bubbles_gap : ℚ) := by
      nlinarith
    push_cast
    linarith

/-- Concrete witness for C5 amended: an MCQ4 block with one label and gap 10
generates a 1 × 4 grid with strictly increasing x coordinates. -/
theorem c5_amended_witness :
    (0 : ℤ) < 10 ∧
    ∃ grid, generate_bubble_grid
        ⟨"B", "QTYPE_MCQ4", (0, 0), [20, 20], 10, 15, ["q1"], "", 0⟩ = some grid ∧
      grid.length = 1 ∧
      (∀ row ∈ grid, row.length = 4) ∧
      grid.join.length = 1 * 4 ∧
      (∀ row ∈ grid, ∀ i : ℕ, i + 1 < row.length →
        axisCoord false (row.getD i ⟨0, 0, "", "", ""⟩) <
          axisCoord false (row.getD (i + 1) ⟨0, 0, "", "", ""⟩)) := by
  refine ⟨by decide, ?_⟩
  obtain ⟨grid, h1, h2, h3, h4, h5⟩ :=
    c5_amended ⟨"B", "QTYPE_MCQ4", (0, 0), [20, 20], 10, 15, ["q1"], "", 0⟩
      ["A", "B", "C", "D"] false rfl
  exact ⟨grid, h1, by simpa using h2, by simpa using h3, by simpa using h4,
    h5 (by decide)⟩

/-! ### Bubble detection: `omr_core/bubble_detection.py` -/

/-- The tuning parameters read in `BubbleDetector.__init__`
(`GAMMA_LOW`, `MIN_GAP`, `MIN_JUMP`, `CONFIDENT_SURPLUS`,
`PAGE_TYPE_FOR_THRESHOLD`). -/
structure ThresholdParams where
  gamma_low : ℚ
  min_gap : ℚ
  min_jump : ℚ
  confident_surplus : ℚ
  page_type_white : Bool
deriving Repr, DecidableEq

/-- `self.global_default_threshold = 200 if page_type == "white" else 100`. -/
def globalDefaultThreshold (p : ThresholdParams) : ℚ :=
  if p.page_type_white then 200 else 100

/-- `sorted(...)` on the flattened pixel intensities (ascending). -/
def sortedPixelVals (pixels : List ℕ) : List ℚ :=
  List.insertionSort (· ≤ ·) (pixels.map (fun v => (v : ℚ)))

/-- The adjacent-but-one pairs scanned by the gap loops: for each window
`q[i-1], q[i], q[i+1]` the pair `(q[i-1], q[i+1] - q[i-1])`. -/
def jumpTriples : List ℚ → List (ℚ × ℚ)
  | a :: b :: c :: rest => (a, c - a) :: jumpTriples (b :: c :: rest)
  | _ => []

/-- The gap-scan loop shared by `get_global_threshold` and
`get_local_threshold`: keep the first strictly-largest jump and its midpoint
`q[i-1] + jump / 2`. -/
def gapScan : ℚ → ℚ → List (ℚ × ℚ) → ℚ × ℚ
  | m, t, [] => (m, t)
  | m, t, (a, j) :: rest =>
    if m < j then gapScan j (a + j / 2) rest else gapScan m t rest

/-- The gamma-low scaling applied at the end of `get_global_threshold`. -/
def gammaScale (p : ThresholdParams) (x : ℚ) : ℚ :=
  if p.gamma_low < 1 then x * p.gamma_low else x

/-- `BubbleDetector.get_global_threshold`: sort all pixel intensities, scan
`q[i+1] - q[i-1]` for `i` in `range(1, len-1)` for the largest jump above
`MIN_JUMP`, and return the gap midpoint (with `±(max1 // 2)` bounds), the
fixed default if no jump exceeded the floor, all scaled by `GAMMA_LOW` when
it is `< 1.0`. -/
def get_global_threshold (p : ThresholdParams) (pixels : List ℕ) : ℚ × ℚ × ℚ :=
  let s := gapScan p.min_jump (globalDefaultThreshold p)
    (jumpTriples (sortedPixelVals pixels))
  let thr_low := s.2 - ((⌊s.1 / 2⌋ : ℤ) : ℚ)
  let thr_high := s.2 + ((⌊s.1 / 2⌋ : ℤ) : ℚ)
  (gammaScale p s.2, gammaScale p thr_low, gammaScale p thr_high)

/-- Largest element of a non-empty list (`np.max`). -/
def maxNE (v : ℚ) (vs : List ℚ) : ℚ := vs.foldl max v

/-- Smallest element of a non-empty list (`np.min`). -/
def minNE (v : ℚ) (vs : List ℚ) : ℚ := vs.foldl min v

/-- Arithmetic mean (`np.mean`). -/
def meanList (l : List ℚ) : ℚ := l.sum / l.length

/-- `BubbleDetector.get_local_threshold`: for fewer than 3 samples compare
the spread against `MIN_GAP` (empty input raises inside `np.max` and the
handler returns the global threshold); otherwise gap-scan the sorted samples
starting from `thr1 = 255` and fall back to the global threshold when the
largest jump is below `MIN_JUMP + CONFIDENT_SURPLUS`. -/
def get_local_threshold (p : ThresholdParams) (q_vals : List ℚ)
    (global_thr : ℚ) : ℚ :=
  match q_vals with
  | [] => global_thr
  | v :: vs =>
    if (v :: vs).length < 3 then
      if maxNE v vs - minNE v vs < p.min_gap then global_thr
      else meanList (v :: vs)
    else
      let s := gapScan p.min_jump 255
        (jumpTriples (List.insertionSort (· ≤ ·) (v :: vs)))
      if s.1 < p.min_jump + p.confident_surplus then global_thr else s.2

/-- A grayscale image: `rows × cols` intensities (`image.shape[0]` rows). -/
structure GrayImage where
  rows : ℕ
  cols : ℕ
  pixel : ℕ → ℕ → ℕ

/-- Python `int(...)` on a float: truncation toward zero. -/
def pyInt (q : ℚ) : ℤ :=
  if 0 ≤ q then ⌊q⌋ else ⌈q⌉

/-- The bounds test of `process_field_block`:
`rect[0] >= 0 and rect[1] <= shape[0] and rect[2] >= 0 and rect[3] <= shape[1]`. -/
def inBoundsRect (img : GrayImage) (y x boxH boxW : ℤ) : Bool :=
  decide (0 ≤ y) && decide (y + boxH ≤ (img.rows : ℤ)) &&
    decide (0 ≤ x) && decide (x + boxW ≤ (img.cols : ℤ))

/-- `cv2.mean(image[y:y+box_h, x:x+box_w])[0]`: the mean intensity of the
bubble rectangle. -/
def meanIntensity (img : GrayImage) (y x boxH boxW : ℤ) : ℚ :=
  (((List.range boxH.toNat).map (fun i =>
      ((List.range boxW.toNat).map (fun j =>
        (img.pixel (y.toNat + i) (x.toNat + j) : ℚ))).sum)).sum) /
    ((boxH.toNat * boxW.toNat : ℕ) : ℚ)

/-- One bubble's classification in the question loop of
`process_field_block`: in bounds and `local_thr > bubble_intensity`
(out-of-bounds bubbles are skipped, i.e. never marked). -/
def bubbleMarked (img : GrayImage) (shift : ℤ) (dims : ℤ × ℤ) (thr : ℚ)
    (b : Bubble) : Bool :=
  let x := pyInt (b.x + (shift : ℚ))
  let y := pyInt b.y
  inBoundsRect img y x dims.2 dims.1 &&
    decide (meanIntensity img y x dims.2 dims.1 < thr)

/-- The intensity-collection loop of `process_field_block`: mean intensities
of all in-bounds bubbles of the block, in traversal order. -/
def collectIntensities (img : GrayImage) (shift : ℤ) (dims : ℤ × ℤ)
    (grid : List (List Bubble)) : List ℚ :=
  grid.join.filterMap (fun b =>
    let x := pyInt (b.x + (shift : ℚ))
    let y := pyInt b.y
    if inBoundsRect img y x dims.2 dims.1 then
      some (meanIntensity img y x dims.2 dims.1)
    else none)

/-- The local threshold used by a field block (computed once per block). -/
def blockLocalThreshold (p : ThresholdParams) (img : GrayImage)
    (fb : FieldBlock) (global_thr : ℚ) (dims : ℤ × ℤ) : ℚ :=
  get_local_threshold p
    (collectIntensities img fb.shift dims (traverseBubbles fb)) global_thr

/-- The default bubble used by `headD` (rows are never empty on the success
path; an empty row raises `IndexError` in the source and the handler returns
the all-empty block result). -/
def dfltBubble : Bubble := ⟨0, 0, "", "", ""⟩

/-- The per-question branch of `process_field_block`: the response string for
one question given its marked bubbles. -/
def questionResponse (ev : String) (keep : Bubble → Bool)
    (row : List Bubble) : String :=
  let det := row.filter keep
  if 1 < det.length then String.join (det.map (·.field_value))
  else if det.length = 1 then (det.headD dfltBubble).field_value
  else ev

/-- The question loop of `process_field_block`: builds the response mapping
and the singly and multiply marked label lists in traversal order. -/
def processRows (ev : String) (keep : Bubble → Bool) :
    List (List Bubble) → List (String × String) × List String × List String
  | [] => ([], [], [])
  | row :: rest =>
    let lab := (row.headD dfltBubble).field_label
    let det := row.filter keep
    let r := processRows ev keep rest
    if 1 < det.length then
      ((lab, String.join (det.map (·.field_value))) :: r.1, r.2.1, lab :: r.2.2)
    else if det.length = 1 then
      ((lab, (det.headD dfltBubble).field_value) :: r.1, lab :: r.2.1, r.2.2)
    else
      ((lab, ev) :: r.1, r.2.1, r.2.2)

/-- The result quadruple of `process_field_block`. -/
structure BlockResult where
  field_response : List (String × String)
  marked : List String
  multi_marked : List String
  multi_roll : List String
deriving Repr, DecidableEq

/-- `BubbleDetector.process_field_block`: collect in-bounds intensities,
compute the block-local threshold, then resolve each question.  A block
containing an empty bubble row would raise `IndexError` at
`field_bubbles[0]`; the handler returns the all-empty result. -/
def process_field_block (p : ThresholdParams) (img : GrayImage)
    (fb : FieldBlock) (global_thr : ℚ) (dims : ℤ × ℤ) : BlockResult :=
  if (traverseBubbles fb).any (·.isEmpty) then ⟨[], [], [], []⟩
  else
    let local_thr := blockLocalThreshold p img fb global_thr dims
    let r := processRows fb.empty_value
      (bubbleMarked img fb.shift dims local_thr) (traverseBubbles fb)
    ⟨r.1, r.2.1, r.2.2, []⟩

/-! #### Claim C6 -/

/-- When no jump strictly exceeds the running maximum the scan state never
changes. -/
theorem gapScan_no_update :
    ∀ (ts : List (ℚ × ℚ)) (m t : ℚ), (∀ x ∈ ts, x.2 ≤ m) →
      gapScan m t ts = (m, t) := by
  intro ts
  induction ts with
  | nil => intro m t _; rfl
  | cons hd tl ih =>
    intro m t h
    obtain ⟨a, j⟩ := hd
    show (if m < j then gapScan j (a + j / 2) tl else gapScan m t tl) = (m, t)
    have hj : j ≤ m := h (a, j) (List.mem_cons_self _ _)
    rw [if_neg (by linarith)]
    exact ih m t (fun x hx => h x (List.mem_cons_of_mem _ hx))

/-- The scan returns the midpoint of the first jump that strictly dominates
every earlier jump, the floor, and every later jump. -/
theorem gapScan_first_max (a j : ℚ) (post : List (ℚ × ℚ))
    (hpost : ∀ x ∈ post, x.2 ≤ j) :
    ∀ (pre : List (ℚ × ℚ)) (m t : ℚ), m < j → (∀ x ∈ pre, x.2 < j) →
      gapScan m t (pre ++ (a, j) :: post) = (j, a + j / 2) := by
  intro pre
  induction pre with
  | nil =>
    intro m t hm _
    show (if m < j then gapScan j (a + j / 2) post else gapScan m t post) = _
    rw [if_pos hm]
    exact gapScan_no_update post j (a + j / 2) hpost
  | cons hd tl ih =>
    intro m t hm hpre
    obtain ⟨b, k⟩ := hd
    show (if m < k then gapScan k (b + k / 2) (tl ++ (a, j) :: post)
      else gapScan m t (tl ++ (a, j) :: post)) = _
    have hk : k < j := hpre (b, k) (List.mem_cons_self _ _)
    by_cases hmk : m < k
    · rw [if_pos hmk]
      exact ih k (b + k / 2) hk (fun x hx => hpre x (List.mem_cons_of_mem _ hx))
    · rw [if_neg hmk]
      exact ih m t hm (fun x hx => hpre x (List.mem_cons_of_mem _ hx))

/-- Claim C6 (confirmed): the global threshold scans the sorted pixel
intensities by adjacent-but-one jumps; when no jump strictly exceeds the
`MIN_JUMP` floor, the threshold is the fixed default (200 for a white page
type, 100 otherwise) with bounds `default ∓ min_jump // 2`; when a jump
strictly dominates the floor, every earlier jump and every later jump, the
threshold is the midpoint of that gap with bounds `midpoint ∓ jump // 2` —
in both cases the threshold AND its bounds are scaled by `GAMMA_LOW` exactly
when `GAMMA_LOW < 1.0`. -/
theorem c6_global_threshold (p : ThresholdParams) (pixels : List ℕ) :
    ((∀ x ∈ jumpTriples (sortedPixelVals pixels), x.2 ≤ p.min_jump) →
      (get_global_threshold p pixels).1 = gammaScale p (globalDefaultThreshold p) ∧
      (get_global_threshold p pixels).2.1 =
        gammaScale p (globalDefaultThreshold p - ((⌊p.min_jump / 2⌋ : ℤ) : ℚ)) ∧
      (get_global_threshold p pixels).2.2 =
        gammaScale p (globalDefaultThreshold p + ((⌊p.min_jump / 2⌋ : ℤ) : ℚ))) ∧
    (∀ (pre post : List (ℚ × ℚ)) (a j : ℚ),
      jumpTriples (sortedPixelVals pixels) = pre ++ (a, j) :: post →
      p.min_jump < j →
      (∀ x ∈ pre, x.2 < j) →
      (∀ x ∈ post, x.2 ≤ j) →
      (get_global_threshold p pixels).1 = gammaScale p (a + j / 2) ∧
      (get_global_threshold p pixels).2.1 =
        gammaScale p (a + j / 2 - ((⌊j / 2⌋ : ℤ) : ℚ)) ∧
      (get_global_threshold p pixels).2.2 =
        gammaScale p (a + j / 2 + ((⌊j / 2⌋ : ℤ) : ℚ))) := by
  constructor
  · intro h
    refine ⟨?_, ?_, ?_⟩
    · show gammaScale p (gapScan p.min_jump (globalDefaultThreshold p)
        (jumpTriples (sortedPixelVals pixels))).2 = _
      rw [gapScan_no_update _ _ _ h]
    · show gammaScale p ((gapScan p.min_jump (globalDefaultThreshold p)
          (jumpTriples (sortedPixelVals pixels))).2 -
        ((⌊(gapScan p.min_jump (globalDefaultThreshold p)
          (jumpTriples (sortedPixelVals pixels))).1 / 2⌋ : ℤ) : ℚ)) = _
      rw [gapScan_no_update _ _ _ h]
    · show gammaScale p ((gapScan p.min_jump (globalDefaultThreshold p)
          (jumpTriples (sortedPixelVals pixels))).2 +
        ((⌊(gapScan p.min_jump (globalDefaultThreshold p)
          (jumpTriples (sortedPixelVals pixels))).1 / 2⌋ : ℤ) : ℚ)) = _
      rw [gapScan_no_update _ _ _ h]
  · intro pre post a j heq hj hpre hpost
    refine ⟨?_, ?_, ?_⟩
    · show gammaScale p (gapScan p.min_jump (globalDefaultThreshold p)
        (jumpTriples (sortedPixelVals pixels))).2 = _
      rw [heq, gapScan_first_max a j post hpost pre _ _ hj hpre]
    · show gammaScale p ((gapScan p.min_jump (globalDefaultThreshold p)
          (jumpTriples (sortedPixelVals pixels))).2 -
        ((⌊(gapScan p.min_jump (globalDefaultThreshold p)
          (jumpTriples (sortedPixelVals pixels))).1 / 2⌋ : ℤ) : ℚ)) = _
      rw [heq, gapScan_first_max a j post hpost pre _ _ hj hpre]
    · show gammaScale p ((gapScan p.min_jump (globalDefaultThreshold p)
          (jumpTriples (sortedPixelVals pixels))).2 +
        ((⌊(gapScan p.min_jump (globalDefaultThreshold p)
          (jumpTriples (sortedPixelVals pixels))).1 / 2⌋ : ℤ) : ℚ)) = _
      rw [heq, gapScan_first_max a j post hpost pre _ _ hj hpre]

/-- Concrete witness for C6: pixels `[0,0,0,200,200,200]`, floor 25, gamma 1:
the dominant gap is 200 between the two intensity populations, the threshold
is its midpoint 100 and the bounds sit `⌊200/2⌋` to either side. -/
theorem c6_global_threshold_witness :
    jumpTriples (sortedPixelVals [0, 0, 0, 200, 200, 200]) =
      [((0 : ℚ), (0 : ℚ))] ++ ((0 : ℚ), (200 : ℚ)) ::
        [((0 : ℚ), (200 : ℚ)), ((200 : ℚ), (0 : ℚ))] ∧
    (⟨1, 30, 25, 5, true⟩ : ThresholdParams).min_jump < 200 ∧
    (get_global_threshold ⟨1, 30, 25, 5, true⟩ [0, 0, 0, 200, 200, 200]).1 =
      gammaScale ⟨1, 30, 25, 5, true⟩ (0 + 200 / 2) ∧
    (get_global_threshold ⟨1, 30, 25, 5, true⟩ [0, 0, 0, 200, 200, 200]).2.1 =
      gammaScale ⟨1, 30, 25, 5, true⟩
        (0 + 200 / 2 - ((⌊(200 : ℚ) / 2⌋ : ℤ) : ℚ)) ∧
    (get_global_threshold ⟨1, 30, 25, 5, true⟩ [0, 0, 0, 200, 200, 200]).2.2 =
      gammaScale ⟨1, 30, 25, 5, true⟩
        (0 + 200 / 2 + ((⌊(200 : ℚ) / 2⌋ : ℤ) : ℚ)) := by
  have h1 : jumpTriples (sortedPixelVals [0, 0, 0, 200, 200, 200]) =
      [((0 : ℚ), (0 : ℚ))] ++ ((0 : ℚ), (200 : ℚ)) ::
        [((0 : ℚ), (200 : ℚ)), ((200 : ℚ), (0 : ℚ))] := by
    norm_num [sortedPixelVals, jumpTriples, List.insertionSort, List.orderedInsert]
  obtain ⟨w1, w2, w3⟩ :=
    (c6_global_threshold ⟨1, 30, 25, 5, true⟩ [0, 0, 0, 200, 200, 200]).2
      [((0 : ℚ), (0 : ℚ))] [((0 : ℚ), (200 : ℚ)), ((200 : ℚ), (0 : ℚ))] 0 200 h1
      (by norm_num) (by norm_num) (by norm_num)
  exact ⟨h1, by norm_num, w1, w2, w3⟩

/-! #### Claim C7 -/

/-- Claim C7 (confirmed): for a fixed local threshold T, an in-bounds bubble
is classified marked iff its measured mean intensity is strictly below T —
both as the raw classification and as membership in the question's detected
set. -/
theorem c7_threshold_monotonicity (img : GrayImage) (shift : ℤ) (dims : ℤ × ℤ)
    (T : ℚ) (row : List Bubble) (b : Bubble)
    (hin : inBoundsRect img (pyInt b.y) (pyInt (b.x + (shift : ℚ)))
      dims.2 dims.1 = true) :
    (bubbleMarked img shift dims T b = true ↔
      meanIntensity img (pyInt b.y) (pyInt (b.x + (shift : ℚ))) dims.2 dims.1 < T) ∧
    (b ∈ row →
      (b ∈ row.filter (bubbleMarked img shift dims T) ↔
        meanIntensity img (pyInt b.y) (pyInt (b.x + (shift : ℚ))) dims.2 dims.1 < T)) := by
  constructor
  · simp [bubbleMarked, hin]
  · intro hb
    simp [List.mem_filter, hb, bubbleMarked, hin]

/-- Concrete witness for C7: a 1×31 image that is dark only in column 0, a
1×1 bubble box at the origin, threshold 10. -/
theorem c7_threshold_monotonicity_witness :
    inBoundsRect ⟨1, 31, fun _ c => if c = 0 then 0 else 255⟩
      (pyInt (0 : ℚ)) (pyInt ((0 : ℚ) + ((0 : ℤ) : ℚ))) 1 1 = true ∧
    (bubbleMarked ⟨1, 31, fun _ c => if c = 0 then 0 else 255⟩ 0 (1, 1) 10
        ⟨0, 0, "q1", "QTYPE_MCQ4", "A"⟩ = true ↔
      meanIntensity ⟨1, 31, fun _ c => if c = 0 then 0 else 255⟩
        (pyInt (0 : ℚ)) (pyInt ((0 : ℚ) + ((0 : ℤ) : ℚ))) 1 1 < 10) := by
  have hin : inBoundsRect ⟨1, 31, fun _ c => if c = 0 then 0 else 255⟩
      (pyInt (0 : ℚ)) (pyInt ((0 : ℚ) + ((0 : ℤ) : ℚ))) 1 1 = true := by
    norm_num [inBoundsRect, pyInt]
  exact ⟨hin,
    (c7_threshold_monotonicity ⟨1, 31, fun _ c => if c = 0 then 0 else 255⟩ 0 (1, 1)
      10 [] ⟨0, 0, "q1", "QTYPE_MCQ4", "A"⟩ hin).1⟩

/-! #### Claim C10: helper lemmas -/

/-- The supported field types have non-empty domains of single-character
values. -/
theorem fieldTypeValues_spec (s : String) (vals : List String) (b : Bool)
    (h : fieldTypeValues s = some (vals, b)) :
    vals ≠ [] ∧ ∀ v ∈ vals, v.length = 1 := by
  unfold fieldTypeValues at h
  split at h <;>
    first
      | · simp only [Option.some.injEq, Prod.mk.injEq] at h
          obtain ⟨h1, -⟩ := h
          subst h1
          exact ⟨by decide, by decide⟩
      | exact absurd h (by simp)

/-- Every bubble of one question's run carries that question's label and a
domain value. -/
theorem placeBubbles_value_mem (ft lab : String) (vert : Bool) (gap : ℚ) :
    ∀ (vs : List String) (p : ℚ × ℚ) (b : Bubble),
      b ∈ placeBubbles ft lab vert gap vs p →
      b.field_value ∈ vs ∧ b.field_label = lab := by
  intro vs
  induction vs with
  | nil => intro p b h; simp [placeBubbles] at h
  | cons v vs ih =>
    intro p b h
    rcases List.mem_cons.mp h with h | h
    · subst h
      exact ⟨List.mem_cons_self _ _, rfl⟩
    · obtain ⟨h1, h2⟩ := ih _ b h
      exact ⟨List.mem_cons_of_mem _ h1, h2⟩

/-- The head labels of the generated rows are exactly the field labels. -/
theorem placeLabels_rowLabels (ft : String) (vert : Bool) (values : List String)
    (bgap lgap : ℚ) (hvne : values ≠ []) :
    ∀ (labels : List String) (lead : ℚ × ℚ),
      (placeLabels ft vert values bgap lgap labels lead).map
        (fun row => (row.headD dfltBubble).field_label) = labels := by
  obtain ⟨v, vs, rfl⟩ := List.exists_cons_of_ne_nil hvne
  intro labels
  induction labels with
  | nil => intro lead; rfl
  | cons lab rest ih =>
    intro lead
    show ((placeBubbles ft lab vert bgap (v :: vs) lead).headD
        dfltBubble).field_label :: _ = _
    rw [ih]
    rfl

/-- The response list built by the question loop, described as a map. -/
theorem processRows_resp (ev : String) (keep : Bubble → Bool) :
    ∀ rows, (processRows ev keep rows).1 =
      rows.map (fun row =>
        ((row.headD dfltBubble).field_label, questionResponse ev keep row)) := by
  intro rows
  induction rows with
  | nil => rfl
  | cons row rest ih =>
    simp only [processRows, List.map_cons]
    split_ifs with h1 h2
    · rw [ih]
      simp only [questionResponse]
      rw [if_pos h1]
    · rw [ih]
      simp only [questionResponse]
      rw [if_neg h1, if_pos h2]
    · rw [ih]
      simp only [questionResponse]
      rw [if_neg h1, if_neg h2]

/-- Membership in the singly-marked list. -/
theorem processRows_marked_mem (ev : String) (keep : Bubble → Bool) :
    ∀ rows (l : String), l ∈ (processRows ev keep rows).2.1 ↔
      ∃ row ∈ rows, (row.headD dfltBubble).field_label = l ∧
        (row.filter keep).length = 1 := by
  intro rows
  induction rows with
  | nil => intro l; simp [processRows]
  | cons row rest ih =>
    intro l
    simp only [processRows]
    split_ifs with h1 h2
    · show l ∈ (processRows ev keep rest).2.1 ↔ _
      rw [ih]
      constructor
      · rintro ⟨r, hr, hl, hc⟩
        exact ⟨r, List.mem_cons_of_mem _ hr, hl, hc⟩
      · rintro ⟨r, hr, hl, hc⟩
        rcases List.mem_cons.mp hr with hr | hr
        · subst hr
          omega
        · exact ⟨r, hr, hl, hc⟩
    · show l ∈ (row.headD dfltBubble).field_label ::
        (processRows ev keep rest).2.1 ↔ _
      constructor
      · intro h
        rcases List.mem_cons.mp h with h | h
        · exact ⟨row, List.mem_cons_self _ _, h.symm, h2⟩
        · obtain ⟨r, hr, hl, hc⟩ := (ih l).mp h
          exact ⟨r, List.mem_cons_of_mem _ hr, hl, hc⟩
      · rintro ⟨r, hr, hl, hc⟩
        rcases List.mem_cons.mp hr with hr | hr
        · subst hr
          rw [← hl]
          exact List.mem_cons_self _ _
        · exact List.mem_cons_of_mem _ ((ih l).mpr ⟨r, hr, hl, hc⟩)
    · show l ∈ (processRows ev keep rest).2.1 ↔ _
      rw [ih]
      constructor
      · rintro ⟨r, hr, hl, hc⟩
        exact ⟨r, List.mem_cons_of_mem _ hr, hl, hc⟩
      · rintro ⟨r, hr, hl, hc⟩
        rcases List.mem_cons.mp hr with hr | hr
        · subst hr
          omega
        · exact ⟨r, hr, hl, hc⟩

/-- Membership in the multi-marked list. -/
theorem processRows_multi_mem (ev : String) (keep : Bubble → Bool) :
    ∀ rows (l : String), l ∈ (processRows ev keep rows).2.2 ↔
      ∃ row ∈ rows, (row.headD dfltBubble).field_label = l ∧
        1 < (row.filter keep).length := by
  intro rows
  induction rows with
  | nil => intro l; simp [processRows]
  | cons row rest ih =>
    intro l
    simp only [processRows]
    split_ifs with h1 h2
    · show l ∈ (row.headD dfltBubble).field_label ::
        (processRows ev keep rest).2.2 ↔ _
      constructor
      · intro h
        rcases List.mem_cons.mp h with h | h
        · exact ⟨row, List.mem_cons_self _ _, h.symm, h1⟩
        · obtain ⟨r, hr, hl, hc⟩ := (ih l).mp h
          exact ⟨r, List.mem_cons_of_mem _ hr, hl, hc⟩
      · rintro ⟨r, hr, hl, hc⟩
        rcases List.mem_cons.mp hr with hr | hr
        · subst hr
          rw [← hl]
          exact List.mem_cons_self _ _
        · exact List.mem_cons_of_mem _ ((ih l).mpr ⟨r, hr, hl, hc⟩)
    · show l ∈ (processRows ev keep rest).2.2 ↔ _
      rw [ih]
      constructor
      · rintro ⟨r, hr, hl, hc⟩
        exact ⟨r, List.mem_cons_of_mem _ hr, hl, hc⟩
      · rintro ⟨r, hr, hl, hc⟩
        rcases List.mem_cons.mp hr with hr | hr
        · subst hr
          omega
        · exact ⟨r, hr, hl, hc⟩
    · show l ∈ (processRows ev keep rest).2.2 ↔ _
      rw [ih]
      constructor
      · rintro ⟨r, hr, hl, hc⟩
        exact ⟨r, List.mem_cons_of_mem _ hr, hl, hc⟩
      · rintro ⟨r, hr, hl, hc⟩
        rcases List.mem_cons.mp hr with hr | hr
        · subst hr
          omega
        · exact ⟨r, hr, hl, hc⟩

/-- Association-list lookup over the per-row response map: with pairwise
distinct labels, looking up a row's label yields that row's response. -/
theorem lookup_label_map (g : List Bubble → String) :
    ∀ (rows : List (List Bubble)),
      ((rows.map (fun row => (row.headD dfltBubble).field_label)).Nodup) →
      ∀ row ∈ rows,
        (rows.map (fun r =>
          ((r.headD dfltBubble).field_label, g r))).lookup
            ((row.headD dfltBubble).field_label) = some (g row) := by
  intro rows
  induction rows with
  | nil => intro _ row hrow; simp at hrow
  | cons r0 rest ih =>
    intro hnd row hrow
    have hnd1 : ((rest.map (fun row => (row.headD dfltBubble).field_label)).Nodup) :=
      (List.nodup_cons.mp hnd).2
    have hnotin : (r0.headD dfltBubble).field_label ∉
        rest.map (fun row => (row.headD dfltBubble).field_label) :=
      (List.nodup_cons.mp hnd).1
    simp only [List.map_cons, List.lookup]
    by_cases heq : (row.headD dfltBubble).field_label =
        (r0.headD dfltBubble).field_label
    · have hbeq : ((row.headD dfltBubble).field_label ==
          (r0.headD dfltBubble).field_label) = true := by simpa using heq
      rw [hbeq]
      rcases List.mem_cons.mp hrow with hr | hr
      · rw [hr]
      · have hmem : (row.headD dfltBubble).field_label ∈
            rest.map (fun row => (row.headD dfltBubble).field_label) :=
          List.mem_map_of_mem _ hr
        rw [heq] at hmem
        exact absurd hmem hnotin
    · have hbeq : ((row.headD dfltBubble).field_label ==
          (r0.headD dfltBubble).field_label) = false := by simpa using heq
      rw [hbeq]
      rcases List.mem_cons.mp hrow with hr | hr
      · exact absurd (by rw [hr]) heq
      · exact ih hnd1 row hr

/-- `String.join` of single-character strings has length the list length. -/
theorem join_length_single (l : List String) (h : ∀ s ∈ l, s.length = 1) :
    (String.join l).length = l.length := by
  have hfold : ∀ (l2 : List String) (acc : String),
      (l2.foldl (fun r s => r ++ s) acc).length =
        acc.length + (l2.map String.length).sum := by
    intro l2
    induction l2 with
    | nil => intro acc; simp
    | cons s l2 ih =>
      intro acc
      rw [List.foldl_cons, ih, String.length_append]
      simp
      omega

  show ((l.foldl (fun r s => r ++ s) "").length) = l.length
  rw [hfold]
  have : (l.map String.length).sum = l.length := by
    induction l with
    | nil => rfl
    | cons s l2 ih =>
      simp only [List.map_cons, List.sum_cons, List.length_cons]
      rw [ih (fun x hx => h x (List.mem_cons_of_mem _ hx))]
      have := h s (List.mem_cons_self _ _)
      omega
  simp [this]

/-! #### Claim C10 -/

/-- Claim C10 (confirmed; the disjointness and lookup clauses assume the
block's field labels are pairwise distinct, the data-model invariant that a
label identifies one question): for every question of a processed field block
with at least one marked bubble, the response is the concatenation of the
single-character values of the marked bubbles, its length is the number of
marked bubbles, the label lands in the multi-marked list iff that count is at
least 2, in the singly-marked list iff the count is exactly 1, and the two
lists are disjoint. -/
theorem c10_question_resolution (p : ThresholdParams) (img : GrayImage)
    (fb : FieldBlock) (global_thr : ℚ) (dims : ℤ × ℤ)
    (values : List String) (vert : Bool) (grid : List (List Bubble))
    (hft : fieldTypeValues fb.field_type = some (values, vert))
    (hgen : generate_bubble_grid fb = some grid)
    (hnd : fb.field_labels.Nodup)
    (row : List Bubble) (hrow : row ∈ grid)
    (det : List Bubble)
    (hdeteq : det = row.filter (bubbleMarked img fb.shift dims
      (blockLocalThreshold p img fb global_thr dims)))
    (hdet : det ≠ []) :
    ((process_field_block p img fb global_thr dims).field_response).lookup
        ((row.headD dfltBubble).field_label) =
      some (String.join (det.map (·.field_value))) ∧
    (String.join (det.map (·.field_value))).length = det.length ∧
    ((row.headD dfltBubble).field_label ∈
        (process_field_block p img fb global_thr dims).multi_marked ↔
      2 ≤ det.length) ∧
    ((row.headD dfltBubble).field_label ∈
        (process_field_block p img fb global_thr dims).marked ↔
      det.length = 1) ∧
    (∀ l ∈ (process_field_block p img fb global_thr dims).marked,
      l ∉ (process_field_block p img fb global_thr dims).multi_marked) := by
  obtain ⟨hvne, hv1⟩ := fieldTypeValues_spec fb.field_type values vert hft
  have htrav : traverseBubbles fb = grid := by
    unfold traverseBubbles
    rw [hgen]
    rfl
  have hgrid : grid = placeLabels fb.field_type vert values (fb.bubbles_gap : ℚ)
      (fb.labels_gap : ℚ) fb.field_labels ((fb.origin.1 : ℚ), (fb.origin.2 : ℚ)) := by
    unfold generate_bubble_grid at hgen
    rw [hft] at hgen
    exact (Option.some.inj hgen).symm
  have hlabels : grid.map (fun row => (row.headD dfltBubble).field_label) =
      fb.field_labels := by
    rw [hgrid]
    exact placeLabels_rowLabels _ _ _ _ _ hvne _ _
  have hndrows : (grid.map (fun row => (row.headD dfltBubble).field_label)).Nodup := by
    rw [hlabels]
    exact hnd
  have hrowsrun : ∀ r ∈ grid, ∃ lab pt, r = placeBubbles fb.field_type lab vert
      (fb.bubbles_gap : ℚ) values pt := by
    intro r hr
    rw [hgrid] at hr
    exact placeLabels_mem _ _ _ _ _ _ _ r hr
  have hrowlen : ∀ r ∈ grid, r.length = values.length := by
    intro r hr
    obtain ⟨lab, pt, hre⟩ := hrowsrun r hr
    rw [hre, placeBubbles_length]
  have hne : ∀ r ∈ grid, r ≠ [] := by
    intro r hr hc
    have hlen := hrowlen r hr
    rw [hc] at hlen
    exact hvne (List.length_eq_zero.mp hlen.symm)
  have hany : grid.any (·.isEmpty) = false := by
    rw [List.any_eq_false]
    intro r hr
    simpa [List.isEmpty_iff] using hne r hr
  have hproc : process_field_block p img fb global_thr dims =
      ⟨(processRows fb.empty_value (bubbleMarked img fb.shift dims
          (blockLocalThreshold p img fb global_thr dims)) grid).1,
        (processRows fb.empty_value (bubbleMarked img fb.shift dims
          (blockLocalThreshold p img fb global_thr dims)) grid).2.1,
        (processRows fb.empty_value (bubbleMarked img fb.shift dims
          (blockLocalThreshold p img fb global_thr dims)) grid).2.2, []⟩ := by
    unfold process_field_block
    rw [htrav, hany]
    simp
  have hqr : questionResponse fb.empty_value (bubbleMarked img fb.shift dims
      (blockLocalThreshold p img fb global_thr dims)) row =
      String.join (det.map (·.field_value)) := by
    simp only [questionResponse, ← hdeteq]
    by_cases h1 : 1 < det.length
    · rw [if_pos h1]
    · rw [if_neg h1]
      have hlen : det.length = 1 := by
        have := List.length_pos.mpr hdet
        omega
      rw [if_pos hlen]
      obtain ⟨b, hb⟩ := List.length_eq_one.mp hlen
      subst hb
      simp [String.join]
  have hdetsub : ∀ b ∈ det, b ∈ row := by
    rw [hdeteq]
    exact fun b hb => (List.mem_filter.mp hb).1
  obtain ⟨lab0, pt0, hrowe⟩ := hrowsrun row hrow
  have hsingle : ∀ s ∈ det.map (fun b => b.field_value), s.length = 1 := by
    intro s hs
    obtain ⟨b, hb, rfl⟩ := List.mem_map.mp hs
    have hbrow := hdetsub b hb
    rw [hrowe] at hbrow
    obtain ⟨hvmem, -⟩ := placeBubbles_value_mem _ _ _ _ _ _ _ hbrow
    exact hv1 _ hvmem
  have hjoin : (String.join (det.map (·.field_value))).length = det.length := by
    have h2 := join_length_single _ hsingle
    rwa [List.length_map] at h2
  refine ⟨?_, hjoin, ?_, ?_, ?_⟩
  · rw [hproc]
    show ((processRows fb.empty_value (bubbleMarked img fb.shift dims
      (blockLocalThreshold p img fb global_thr dims)) grid).1).lookup
        ((row.headD dfltBubble).field_label) = _
    rw [processRows_resp]
    rw [lookup_label_map _ grid hndrows row hrow]
    rw [hqr]
  · rw [hproc]
    show (row.headD dfltBubble).field_label ∈
      (processRows fb.empty_value (bubbleMarked img fb.shift dims
        (blockLocalThreshold p img fb global_thr dims)) grid).2.2 ↔ _
    rw [processRows_multi_mem]
    constructor
    · rintro ⟨r, hr, hl, hc⟩
      have hreq := List.inj_on_of_nodup_map hndrows hr hrow hl
      subst hreq
      rw [← hdeteq] at hc
      omega
    · intro h
      refine ⟨row, hrow, rfl, ?_⟩
      rw [← hdeteq]
      omega
  · rw [hproc]
    show (row.headD dfltBubble).field_label ∈
      (processRows fb.empty_value (bubbleMarked img fb.shift dims
        (blockLocalThreshold p img fb global_thr dims)) grid).2.1 ↔ _
    rw [processRows_marked_mem]
    constructor
    · rintro ⟨r, hr, hl, hc⟩
      have hreq := List.inj_on_of_nodup_map hndrows hr hrow hl
      subst hreq
      rw [← hdeteq] at hc
      exact hc
    · intro h
      refine ⟨row, hrow, rfl, ?_⟩
      rw [← hdeteq]
      exact h
  · rw [hproc]
    intro l hm hmm
    obtain ⟨r1, hr1, hl1, hc1⟩ := (processRows_marked_mem _ _ grid l).mp hm
    obtain ⟨r2, hr2, hl2, hc2⟩ := (processRows_multi_mem _ _ grid l).mp hmm
    have hreq := List.inj_on_of_nodup_map hndrows hr1 hr2 (hl1.trans hl2.symm)
    subst hreq
    omega

/-- Concrete witness for C10: a one-question MCQ4 block over a 1×31 image
dark only in column 0; exactly bubble `A` is marked, the response is `"A"`,
and `q1` lands in the singly-marked list. -/
theorem c10_question_resolution_witness :
    ([(⟨0, 0, "q1", "QTYPE_MCQ4", "A"⟩ : Bubble)] : List Bubble) ≠ [] ∧
    ((process_field_block ⟨1, 30, 25, 5, true⟩
        ⟨1, 31, fun _ c => if c = 0 then 0 else 255⟩
        ⟨"B", "QTYPE_MCQ4", (0, 0), [1, 1], 10, 15, ["q1"], "", 0⟩
        200 (1, 1)).field_response).lookup "q1" =
      some (String.join ["A"]) ∧
    ("q1" ∈ (process_field_block ⟨1, 30, 25, 5, true⟩
        ⟨1, 31, fun _ c => if c = 0 then 0 else 255⟩
        ⟨"B", "QTYPE_MCQ4", (0, 0), [1, 1], 10, 15, ["q1"], "", 0⟩
        200 (1, 1)).marked ↔ (1 : ℕ) = 1) := by
  have hgen : generate_bubble_grid
      ⟨"B", "QTYPE_MCQ4", (0, 0), [1, 1], 10, 15, ["q1"], "", 0⟩ =
      some [[⟨0, 0, "q1", "QTYPE_MCQ4", "A"⟩, ⟨10, 0, "q1", "QTYPE_MCQ4", "B"⟩,
        ⟨20, 0, "q1", "QTYPE_MCQ4", "C"⟩, ⟨30, 0, "q1", "QTYPE_MCQ4", "D"⟩]] := by
    norm_num [generate_bubble_grid, fieldTypeValues, placeLabels, placeBubbles]
  have htrav2 : traverseBubbles
      ⟨"B", "QTYPE_MCQ4", (0, 0), [1, 1], 10, 15, ["q1"], "", 0⟩ =
      [[⟨0, 0, "q1", "QTYPE_MCQ4", "A"⟩, ⟨10, 0, "q1", "QTYPE_MCQ4", "B"⟩,
        ⟨20, 0, "q1", "QTYPE_MCQ4", "C"⟩, ⟨30, 0, "q1", "QTYPE_MCQ4", "D"⟩]] := by
    unfold traverseBubbles
    rw [hgen]
    rfl
  have hloc : blockLocalThreshold ⟨1, 30, 25, 5, true⟩
      ⟨1, 31, fun _ c => if c = 0 then 0 else 255⟩
      ⟨"B", "QTYPE_MCQ4", (0, 0), [1, 1], 10, 15, ["q1"], "", 0⟩ 200 (1, 1) =
      255 / 2 := by
    unfold blockLocalThreshold
    rw [htrav2]
    norm_num [collectIntensities, List.filterMap, List.join, inBoundsRect,
      meanIntensity, pyInt, get_local_threshold, gapScan, jumpTriples,
      List.insertionSort, List.orderedInsert, List.range_succ, List.range_zero]
  have hdeteq : ([(⟨0, 0, "q1", "QTYPE_MCQ4", "A"⟩ : Bubble)] : List Bubble) =
      ([⟨0, 0, "q1", "QTYPE_MCQ4", "A"⟩, ⟨10, 0, "q1", "QTYPE_MCQ4", "B"⟩,
        ⟨20, 0, "q1", "QTYPE_MCQ4", "C"⟩,
        ⟨30, 0, "q1", "QTYPE_MCQ4", "D"⟩] : List Bubble).filter
        (bubbleMarked ⟨1, 31, fun _ c => if c = 0 then 0 else 255⟩
          (0 : ℤ) (1, 1)
          (blockLocalThreshold ⟨1, 30, 25, 5, true⟩
            ⟨1, 31, fun _ c => if c = 0 then 0 else 255⟩
            ⟨"B", "QTYPE_MCQ4", (0, 0), [1, 1], 10, 15, ["q1"], "", 0⟩
            200 (1, 1))) := by
    rw [hloc]
    norm_num [List.filter, bubbleMarked, inBoundsRect, meanIntensity, pyInt,
      List.range_succ, List.range_zero]
  have h := c10_question_resolution ⟨1, 30, 25, 5, true⟩
    ⟨1, 31, fun _ c => if c = 0 then 0 else 255⟩
    ⟨"B", "QTYPE_MCQ4", (0, 0), [1, 1], 10, 15, ["q1"], "", 0⟩ 200 (1, 1)
    ["A", "B", "C", "D"] false
    [[⟨0, 0, "q1", "QTYPE_MCQ4", "A"⟩, ⟨10, 0, "q1", "QTYPE_MCQ4", "B"⟩,
      ⟨20, 0, "q1", "QTYPE_MCQ4", "C"⟩, ⟨30, 0, "q1", "QTYPE_MCQ4", "D"⟩]]
    rfl hgen (by simp)
    [⟨0, 0, "q1", "QTYPE_MCQ4", "A"⟩, ⟨10, 0, "q1", "QTYPE_MCQ4", "B"⟩,
      ⟨20, 0, "q1", "QTYPE_MCQ4", "C"⟩, ⟨30, 0, "q1", "QTYPE_MCQ4", "D"⟩]
    (by simp)
    [⟨0, 0, "q1", "QTYPE_MCQ4", "A"⟩] hdeteq (by simp)
  exact ⟨by simp, h.1, h.2.2.2.1⟩

/-! ### Marker-aligned crop: `omr_core/processors.py`, `CropOnMarkers` -/

/-- One quadrant of the page as a half-open row/column range. -/
structure QuadRegion where
  rowLo : ℕ
  rowHi : ℕ
  colLo : ℕ
  colHi : ℕ
deriving Repr, DecidableEq

/-- The quadrant split of `CropOnMarkers.apply_filter`: `midh, midw = h // 3,
w // 2`; quadrants 0 and 1 are the rows `[0:midh]`, quadrants 2 and 3 the
rows `[midh:h]`; columns split at `midw`. -/
def quadRegions (h w : ℕ) : List QuadRegion :=
  let midh := h / 3
  let midw := w / 2
  [⟨0, midh, 0, midw⟩, ⟨0, midh, midw, w⟩, ⟨midh, h, 0, midw⟩, ⟨midh, h, midw, w⟩]

/-- Modelled from the spec: the claim's quadrant geometry, with the
"horizontal split at one-third height for top, two-thirds for bottom" — the
bottom quadrants would start at two-thirds of the page height.  Used only to
compare against the source's `quadRegions`. -/
def quadRegionsSpecClaim (h w : ℕ) : List QuadRegion :=
  [⟨0, h / 3, 0, w / 2⟩, ⟨0, h / 3, w / 2, w⟩,
    ⟨2 * h / 3, h, 0, w / 2⟩, ⟨2 * h / 3, h, w / 2, w⟩]

/-- The marker-matching loop of `CropOnMarkers.apply_filter` over the four
quadrant best matches `(max_t, centre)`: abort with `none` as soon as a best
score falls below the minimum matching threshold, otherwise collect the four
centres in order.  (`cv2.matchTemplate` itself is opaque image processing;
its per-quadrant best score and centre are taken as inputs.) -/
def collectCentres (thr : ℚ) : List (ℚ × (ℕ × ℕ)) → Option (List (ℕ × ℕ))
  | [] => some []
  | (s, c) :: rest =>
    if s < thr then none else (collectCentres thr rest).map (c :: ·)

/-- The tail of `CropOnMarkers.apply_filter`: pass the image through
unchanged when the loop aborted, otherwise warp by the four centres
(`warp` stands for the `cv2.getPerspectiveTransform`/`warpPerspective`
call). -/
def cropOnMarkersQuadLoop (thr : ℚ) (quadMatches : List (ℚ × (ℕ × ℕ)))
    (warp : List (ℕ × ℕ) → GrayImage) (img : GrayImage) : GrayImage :=
  match collectCentres thr quadMatches with
  | none => img
  | some cs => warp cs

/-- An aborted quadrant (best score below the threshold) makes the whole
collection abort. -/
theorem collectCentres_none (thr : ℚ) :
    ∀ (quadMatches : List (ℚ × (ℕ × ℕ))), (∃ m ∈ quadMatches, m.1 < thr) →
      collectCentres thr quadMatches = none := by
  intro quadMatches
  induction quadMatches with
  | nil => rintro ⟨m, hm, -⟩; simp at hm
  | cons hd rest ih =>
    rintro ⟨m, hm, hs⟩
    obtain ⟨s, c⟩ := hd
    show (if s < thr then none else (collectCentres thr rest).map (c :: ·)) = none
    by_cases hsthr : s < thr
    · rw [if_pos hsthr]
    · rw [if_neg hsthr]
      rcases List.mem_cons.mp hm with hm | hm
      · subst hm
        exact absurd hs hsthr
      · rw [ih ⟨m, hm, hs⟩]
        rfl

/-! #### Claim C8 -/

/-- Claim C8 counterexample: at page height 9 and width 8 the source's third
and fourth quadrants start at row 3 = 9 // 3, not at two-thirds of the height
(row 6), so the claimed quadrant geometry differs from the code's. -/
theorem c8_counterexample :
    quadRegions 9 8 ≠ quadRegionsSpecClaim 9 8 ∧
    ((quadRegions 9 8).getD 2 ⟨0, 0, 0, 0⟩).rowLo = 3 ∧
    ((quadRegionsSpecClaim 9 8).getD 2 ⟨0, 0, 0, 0⟩).rowLo = 6 := by
  refine ⟨by decide, rfl, rfl⟩

/-- Claim C8 (amended): the marker is matched independently in four quadrants
split by the vertical midline at half the page width and by a single
horizontal split at one-third of the page height — the top quadrants cover
the top third and the bottom quadrants the remaining two-thirds down to the
bottom (so quadrants are still not equal-area); if any quadrant's best match
score falls below the minimum-confidence threshold, the step returns the
input image unchanged. -/
theorem c8_amended (h w : ℕ) (thr : ℚ) (quadMatches : List (ℚ × (ℕ × ℕ)))
    (warp : List (ℕ × ℕ) → GrayImage) (img : GrayImage)
    (hbelow : ∃ m ∈ quadMatches, m.1 < thr) :
    (quadRegions h w).length = 4 ∧
    (∀ q ∈ (quadRegions h w).take 2, q.rowLo = 0 ∧ q.rowHi = h / 3) ∧
    (∀ q ∈ (quadRegions h w).drop 2, q.rowLo = h / 3 ∧ q.rowHi = h) ∧
    (∀ q ∈ quadRegions h w, (q.colLo = 0 ∧ q.colHi = w / 2) ∨
      (q.colLo = w / 2 ∧ q.colHi = w)) ∧
    cropOnMarkersQuadLoop thr quadMatches warp img = img := by
  refine ⟨rfl, ?_, ?_, ?_, ?_⟩
  · intro q hq
    simp only [quadRegions, List.take, List.mem_cons, List.not_mem_nil] at hq
    rcases hq with hq | hq | hq
    · subst hq; exact ⟨rfl, rfl⟩
    · subst hq; exact ⟨rfl, rfl⟩
    · exact absurd hq (by simp)
  · intro q hq
    simp only [quadRegions, List.drop, List.mem_cons, List.not_mem_nil] at hq
    rcases hq with hq | hq | hq
    · subst hq; exact ⟨rfl, rfl⟩
    · subst hq; exact ⟨rfl, rfl⟩
    · exact absurd hq (by simp)
  · intro q hq
    simp only [quadRegions, List.mem_cons, List.not_mem_nil] at hq
    rcases hq with hq | hq | hq | hq | hq
    · subst hq; exact Or.inl ⟨rfl, rfl⟩
    · subst hq; exact Or.inr ⟨rfl, rfl⟩
    · subst hq; exact Or.inl ⟨rfl, rfl⟩
    · subst hq; exact Or.inr ⟨rfl, rfl⟩
    · exact absurd hq (by simp)
  · unfold cropOnMarkersQuadLoop
    rw [collectCentres_none thr quadMatches hbelow]

/-- Concrete witness for C8 amended: the second quadrant's best score 0 is
below the threshold 1, so the crop step returns the input image unchanged. -/
theorem c8_amended_witness :
    (∃ m ∈ [((2 : ℚ), ((0, 0) : ℕ × ℕ)), (0, (5, 5)), (2, (0, 0)), (2, (0, 0))],
      m.1 < 1) ∧
    cropOnMarkersQuadLoop 1
        [((2 : ℚ), ((0, 0) : ℕ × ℕ)), (0, (5, 5)), (2, (0, 0)), (2, (0, 0))]
        (fun _ => ⟨0, 0, fun _ _ => 0⟩) ⟨2, 2, fun _ _ => 7⟩ =
      ⟨2, 2, fun _ _ => 7⟩ := by
  have hbelow : ∃ m ∈ [((2 : ℚ), ((0, 0) : ℕ × ℕ)), (0, (5, 5)), (2, (0, 0)),
      (2, (0, 0))], m.1 < 1 := ⟨(0, (5, 5)), by decide, by decide⟩
  exact ⟨hbelow, (c8_amended 9 8 1
    [((2 : ℚ), ((0, 0) : ℕ × ℕ)), (0, (5, 5)), (2, (0, 0)), (2, (0, 0))]
    (fun _ => ⟨0, 0, fun _ _ => 0⟩) ⟨2, 2, fun _ _ => 7⟩ hbelow).2.2.2.2⟩

end OMR
